import Mathlib

/-!
Verification development for the dusk-blindbid core: a shallow embedding of
the `Bid` commitment/encryption data model (`src/bid/bid.rs`), the protocol
range constants (`src/lib.rs`), and — modelled from the specification where
the corresponding source files are not part of the repository snapshot — the
`Score` derivation, the canonical bid digest and the blind-bid circuit
verification relation.

Field elements are embedded as `Fin p` for the relevant prime modulus
(`BlsScalar`, `JubJubScalar`); `u64` values as `Fin (2^64)`; the external
collaborators (sponge hash/cipher, elliptic-curve group operations, Merkle
branch authentication, fixed-width point/cipher serialization) are
parameters gathered in the `Ext` record, exactly as the specification treats
them: external interfaces with stated contracts, not reimplemented here.
-/

namespace BlindBid

/-- Order of the BLS12-381 scalar field (the `BlsScalar` modulus of
`dusk_bls12_381`). -/
def pBls : Nat :=
  52435875175126190479447740508185965837690552500527637822603658699938581184513

/-- Order of the Jubjub scalar field (the `JubJubScalar` modulus of
`dusk_jubjub`). -/
def rJub : Nat :=
  6554484396890773809930967563523245729705921265872317281365359162392183254199

theorem pBls_pos : 0 < pBls := by decide

theorem rJub_pos : 0 < rJub := by decide

theorem rJub_lt_pBls : rJub < pBls := by decide

theorem two_pow_64_lt_rJub : 2 ^ 64 < rJub := by decide

instance : NeZero pBls := ⟨Nat.pos_iff_ne_zero.mp pBls_pos⟩

instance : NeZero rJub := ⟨Nat.pos_iff_ne_zero.mp rJub_pos⟩

/-- A canonical BLS12-381 scalar field element. -/
abbrev BlsScalar := Fin pBls

/-- A canonical Jubjub scalar field element. -/
abbrev JubJubScalar := Fin rJub

/-- A Rust `u64` value. -/
abbrev U64 := Fin (2 ^ 64)

/-- The Rust `.into()` conversion from `JubJubScalar` to `BlsScalar`: the
canonical value is injected unchanged (the Jubjub scalar order is smaller
than the BLS scalar order). -/
def jubToBls (x : JubJubScalar) : BlsScalar :=
  ⟨x.val, lt_trans x.isLt rJub_lt_pBls⟩

/-- The conversion used in `Bid::decrypt_data`:
`JubJubScalar::from_raw(*m.reduce().internal_repr())` takes the canonical
256-bit representation of a `BlsScalar` and reduces it modulo the Jubjub
scalar order. -/
def blsToJub (x : BlsScalar) : JubJubScalar :=
  ⟨x.val % rJub, Nat.mod_lt _ rJub_pos⟩

/-- A `u64` injected into the BLS scalar field (`BlsScalar::from(u64)`). -/
def u64ToBls (x : U64) : BlsScalar :=
  ⟨x.val, lt_trans (lt_trans x.isLt two_pow_64_lt_rJub) rJub_lt_pBls⟩

/-- External collaborators of the core (spec §6): sponge hash/cipher,
elliptic-curve group arithmetic, Merkle branch authentication and the
fixed-width serializers of the externally defined types. Opaque external
values (curve points in affine encoding, stealth addresses, Poseidon
ciphertexts, Merkle branches) are represented by `Nat` handles. -/
structure Ext where
  /-- Sponge hash `H : sequence of field elements → field element`
  (`poseidon252::sponge::hash`); inputs are taken as raw canonical values so
  that heterogeneous field data can be absorbed. -/
  spongeHash : List Nat → BlsScalar
  /-- Authenticated encryption `PoseidonCipher::encrypt([m0, m1], secret,
  nonce)`; returns an opaque ciphertext handle. -/
  encrypt : BlsScalar → BlsScalar → Nat → BlsScalar → Nat
  /-- Authenticated decryption `PoseidonCipher::decrypt(secret, nonce)`;
  `none` models an authentication failure. -/
  decrypt : Nat → Nat → BlsScalar → Option (BlsScalar × BlsScalar)
  /-- Scalar multiplication of a curve point by a Jubjub scalar. -/
  smul : Nat → JubJubScalar → Nat
  /-- Curve point addition. -/
  padd : Nat → Nat → Nat
  /-- The fixed generator `GENERATOR_EXTENDED`. -/
  G : Nat
  /-- The independent generator `GENERATOR_NUMS_EXTENDED`. -/
  GNUMS : Nat
  /-- `PoseidonCipher::to_bytes` (96 bytes). -/
  cipherToBytes : Nat → List Nat
  /-- `PoseidonCipher::from_slice`. -/
  cipherFromBytes : List Nat → Option Nat
  /-- `StealthAddress::to_bytes` (64 bytes). -/
  saToBytes : Nat → List Nat
  /-- `StealthAddress::from_slice`. -/
  saFromBytes : List Nat → Option Nat
  /-- `JubJubAffine::to_bytes` (32 bytes, validated compressed encoding). -/
  pointToBytes : Nat → List Nat
  /-- `JubJubAffine::from_slice`. -/
  pointFromBytes : List Nat → Option Nat
  /-- Merkle branch authentication: does the branch authenticate the given
  leaf digest at the given position under the given root? -/
  merkleOk : Nat → BlsScalar → BlsScalar → Nat → Bool
  /-- The protocol-defined sortition weight formula (spec §4.2/§9: exact
  algebraic combination left open, hence a parameter): combines the
  decrypted value with `secret_k`, the consensus seed, round, step and the
  branch root into the score scalar. -/
  scoreFormula : JubJubScalar → BlsScalar → BlsScalar → BlsScalar →
    BlsScalar → BlsScalar → BlsScalar

/-- The randomness drawn by one `Bid::new`/`set_value` call, in sampling
order: `JubJubScalar::random(rng)` for the blinder, then
`BlsScalar::random(rng)` for the nonce (spec §9: the randomness source is an
explicit capability). -/
structure Rng where
  blinder : JubJubScalar
  nonce : BlsScalar

/-- The protocol error taxonomy (`BlindBidError`). The first three variants
are constructed in `src/bid/bid.rs`; the eligibility/expiration variants are
modelled from the spec (§7: "Eligibility not yet reached / expiration
passed"), their defining module not being part of the snapshot. -/
inductive BlindBidError where
  | MaximumBidValueExceeded (max_val found : JubJubScalar)
  | MinimumBidValueUnreached (min_val found : JubJubScalar)
  | WrongSecretProvided
  | BidNotYetEligible
  | ExpiredBid
  deriving DecidableEq, Repr

/-- `V_RAW_MIN` from `src/lib.rs`. -/
def V_RAW_MIN : Nat := 50000

/-- `V_RAW_MAX` from `src/lib.rs`. -/
def V_RAW_MAX : Nat := 250000

/-- `V_MIN = JubJubScalar::from_raw([V_RAW_MIN, 0, 0, 0])`: `from_raw`
reduces the raw value modulo the Jubjub scalar order. -/
def V_MIN : JubJubScalar := ⟨V_RAW_MIN % rJub, Nat.mod_lt _ rJub_pos⟩

/-- `V_MAX = JubJubScalar::from_raw([V_RAW_MAX, 0, 0, 0])`. -/
def V_MAX : JubJubScalar := ⟨V_RAW_MAX % rJub, Nat.mod_lt _ rJub_pos⟩

/-- The `Bid` struct of `src/bid/bid.rs`. -/
structure Bid where
  /-- `b_enc` (encrypted value and blinder), a `PoseidonCipher`. -/
  encrypted_data : Nat
  /-- Nonce used by the cipher. -/
  nonce : BlsScalar
  /-- Stealth address of the bidder. -/
  stealth_address : Nat
  /-- `m`. -/
  hashed_secret : BlsScalar
  /-- `c` (Pedersen commitment), a `JubJubAffine` point. -/
  c : Nat
  /-- Eligibility timestamp. -/
  eligibility : U64
  /-- Expiration timestamp. -/
  expiration : U64
  /-- Position of the bid in the bid tree. -/
  pos : U64
  deriving DecidableEq, Repr

namespace Bid

/-- `Bid::set_value` (`src/bid/bid.rs` lines 210-230): samples a fresh
blinder and nonce, encrypts `(value, blinder)` under the shared secret and
the fresh nonce, and recomputes the Pedersen commitment
`c = GENERATOR_EXTENDED * value + GENERATOR_NUMS_EXTENDED * blinder`. -/
def set_value (E : Ext) (rng : Rng) (b : Bid) (value : JubJubScalar)
    (secret : Nat) : Bid :=
  let blinder := rng.blinder
  let nonce := rng.nonce
  { b with
    nonce := nonce
    encrypted_data := E.encrypt (jubToBls value) (jubToBls blinder) secret nonce
    c := E.padd (E.smul E.G value) (E.smul E.GNUMS blinder) }

/-- `Bid::new` (`src/bid/bid.rs` lines 119-167). The source matches on the
pair `(value > V_MAX, value < V_MIN)` of reduced-scalar comparisons: the
`(true, false)` arm fails with `MaximumBidValueExceeded`, `(false, true)`
with `MinimumBidValueUnreached`, `(false, false)` proceeds, and
`(true, true)` is `unreachable!()` (impossible since `V_MIN ≤ V_MAX`); the
nested conditional below has exactly the same semantics. On success an
empty bid is filled with `hashed_secret = H([secret_k])`, the supplied
window, `pos = 0` and the `JubJubAffine::default()` / `PoseidonCipher::
default()` / `BlsScalar::default()` placeholders (represented by `0`), then
`set_value` overwrites the placeholders. -/
def new (E : Ext) (rng : Rng) (stealth_address : Nat) (value : JubJubScalar)
    (secret : Nat) (secret_k : BlsScalar) (eligibility expiration : U64) :
    Except BlindBidError Bid :=
  if V_MAX < value then
    .error (.MaximumBidValueExceeded V_MAX value)
  else if value < V_MIN then
    .error (.MinimumBidValueUnreached V_MIN value)
  else
    let bid : Bid :=
      { hashed_secret := E.spongeHash [secret_k.val]
        eligibility := eligibility
        expiration := expiration
        c := 0
        stealth_address := stealth_address
        encrypted_data := 0
        nonce := ⟨0, pBls_pos⟩
        pos := ⟨0, by decide⟩ }
    .ok (bid.set_value E rng value secret)

/-- `Bid::generate_prover_id` (`src/bid/bid.rs` lines 173-186): the sponge
hash of `[secret_k, consensus_round_seed, latest_consensus_round,
latest_consensus_step]`; the `self` receiver is not used. -/
def generate_prover_id (E : Ext) (_b : Bid) (secret_k : BlsScalar)
    (consensus_round_seed : BlsScalar) (latest_consensus_round : BlsScalar)
    (latest_consensus_step : BlsScalar) : BlsScalar :=
  E.spongeHash
    [secret_k.val, consensus_round_seed.val, latest_consensus_round.val,
      latest_consensus_step.val]

/-- `Bid::decrypt_data` (`src/bid/bid.rs` lines 190-208): decrypt the
ciphertext under the supplied secret and the stored nonce; on success
convert the two message elements to Jubjub scalars via
`from_raw(reduce().internal_repr())`; any decryption failure becomes
`WrongSecretProvided`. -/
def decrypt_data (E : Ext) (b : Bid) (secret : Nat) :
    Except BlindBidError (JubJubScalar × JubJubScalar) :=
  match E.decrypt b.encrypted_data secret b.nonce with
  | some message => .ok (blsToJub message.1, blsToJub message.2)
  | none => .error .WrongSecretProvided

/-- Modelled from the spec: `Bid::hash` — the canonical digest used by the
`PartialEq` impl in `src/bid/bid.rs` (lines 51-55) — is defined in a module
that is not part of the repository snapshot. Spec §3: "a single hash over
all fields, used for tree storage/lookup"; modelled as the sponge hash of
the flattened field list in declaration order. -/
def hash (E : Ext) (b : Bid) : BlsScalar :=
  E.spongeHash
    [b.encrypted_data, b.nonce.val, b.stealth_address, b.hashed_secret.val,
      b.c, b.eligibility.val, b.expiration.val, b.pos.val]

/-- The `PartialEq for Bid` impl (`src/bid/bid.rs` lines 51-55):
`self.hash().eq(&other.hash())`. -/
def beq (E : Ext) (a b : Bid) : Bool :=
  a.hash E == b.hash E

end Bid

/-- Modelled from the spec: the `Score` struct — exported by `src/lib.rs`
(`pub use bid::{Bid, Score}`) but defined in a module that is not part of
the repository snapshot. Spec §3 names one datum: `value`, a field element
representing the bid's sortition weight. -/
structure Score where
  value : BlsScalar
  deriving DecidableEq, Repr

/-- Modelled from the spec: `Score::compute` — its defining module is not
part of the repository snapshot (only its callers in
`src/proof/bid_tests.rs` are). Spec §4.2, in the spec's stated order:
decrypts the bid (propagating `WrongSecretProvided` on failure), rejects
with an eligibility error if `round < bid.eligibility`, rejects with an
expiration error if `round > bid.expiration`, otherwise combines the
decrypted value with the pseudo-random quantities through the
protocol-defined sortition formula (`Ext.scoreFormula`, left open by the
spec §9). -/
def Score.compute (E : Ext) (bid : Bid) (secret : Nat) (secret_k : BlsScalar)
    (bid_tree_root : BlsScalar) (consensus_round_seed : BlsScalar)
    (latest_consensus_round latest_consensus_step : U64) :
    Except BlindBidError Score :=
  match bid.decrypt_data E secret with
  | .error e => .error e
  | .ok value_blinder =>
    if latest_consensus_round < bid.eligibility then
      .error .BidNotYetEligible
    else if bid.expiration < latest_consensus_round then
      .error .ExpiredBid
    else
      .ok ⟨E.scoreFormula value_blinder.1 secret_k consensus_round_seed
        (u64ToBls latest_consensus_round) (u64ToBls latest_consensus_step)
        bid_tree_root⟩

/-! ## Fixed-width byte serialization (`Serializable for Bid`) -/

/-- Little-endian byte decomposition of a natural number into `w` bytes. -/
def natToBytesLE : Nat → Nat → List Nat
  | 0, _ => []
  | w + 1, n => n % 256 :: natToBytesLE w (n / 256)

/-- Little-endian recomposition of a byte list into a natural number. -/
def bytesToNatLE : List Nat → Nat
  | [] => 0
  | b :: bs => b + 256 * bytesToNatLE bs

/-- Rust `buf[start..start + src.len()].copy_from_slice(src)` on a byte
buffer. -/
def writeSlice (buf : List Nat) (start : Nat) (src : List Nat) : List Nat :=
  buf.take start ++ src ++ buf.drop (start + src.length)

/-- The sub-slice `buf[a..b]`. -/
def extract (buf : List Nat) (a b : Nat) : List Nat :=
  (buf.drop a).take (b - a)

/-- `BlsScalar::to_bytes`: the canonical value in 32 little-endian bytes. -/
def blsToBytes (x : BlsScalar) : List Nat :=
  natToBytesLE 32 x.val

/-- `BlsScalar::from_slice`: a 32-byte little-endian decode that rejects
non-canonical values. -/
def blsFromBytes (bs : List Nat) : Option BlsScalar :=
  if h : bs.length = 32 ∧ bytesToNatLE bs < pBls then
    some ⟨bytesToNatLE bs, h.2⟩
  else
    none

/-- `u64::from_le_bytes` over an 8-byte slice. -/
def toU64LE (bs : List Nat) : U64 :=
  ⟨bytesToNatLE bs % 2 ^ 64, Nat.mod_lt _ (by decide)⟩

/-- The serialized size of a `Bid`:
`PoseidonCipher::SIZE + StealthAddress::SIZE + 2 * BlsScalar::SIZE +
JubJubAffine::SIZE + 8 * 3 = 96 + 64 + 64 + 32 + 24 = 280`. -/
def BID_SIZE : Nat := 280

namespace Bid

/-- `Bid::to_bytes` (`src/bid/bid.rs` lines 100-112): a zeroed fixed-width
buffer filled by `copy_from_slice` at the source's offsets, in the source's
order. -/
def to_bytes (E : Ext) (b : Bid) : List Nat :=
  let buf := List.replicate BID_SIZE 0
  let buf := writeSlice buf 0 (E.cipherToBytes b.encrypted_data)
  let buf := writeSlice buf 96 (blsToBytes b.nonce)
  let buf := writeSlice buf 128 (E.saToBytes b.stealth_address)
  let buf := writeSlice buf 192 (blsToBytes b.hashed_secret)
  let buf := writeSlice buf 224 (E.pointToBytes b.c)
  let buf := writeSlice buf 256 (natToBytesLE 8 b.eligibility.val)
  let buf := writeSlice buf 264 (natToBytesLE 8 b.expiration.val)
  let buf := writeSlice buf 272 (natToBytesLE 8 b.pos.val)
  buf

/-- `Bid::from_bytes` (`src/bid/bid.rs` lines 72-98): fixed-width decode of
the sub-slices at the source's offsets; any sub-decode failure fails the
whole decode (the `dusk_bytes::Error` payload is not inspected by any
caller in scope, so failure is modelled as `none`). -/
def from_bytes (E : Ext) (buf : List Nat) : Option Bid :=
  (E.cipherFromBytes (extract buf 0 96)).bind fun encrypted_data =>
  (blsFromBytes (extract buf 96 128)).bind fun nonce =>
  (E.saFromBytes (extract buf 128 192)).bind fun stealth_address =>
  (blsFromBytes (extract buf 192 224)).bind fun hashed_secret =>
  (E.pointFromBytes (extract buf 224 256)).bind fun c =>
  some
    { encrypted_data := encrypted_data
      nonce := nonce
      stealth_address := stealth_address
      hashed_secret := hashed_secret
      c := c
      eligibility := toU64LE (extract buf 256 264)
      expiration := toU64LE (extract buf 264 272)
      pos := toU64LE (extract buf 272 280) }

end Bid

/-! ## The blind-bid circuit verification relation -/

/-- The six public inputs of a blind-bid proof, in the fixed order of spec
§6 and of the `pi` vectors in `src/proof/bid_tests.rs`. -/
structure PublicInputs where
  root : BlsScalar
  bid_digest : BlsScalar
  commitment : Nat
  hashed_secret : BlsScalar
  prover_id : BlsScalar
  score : BlsScalar
  deriving DecidableEq, Repr

/-- The private witness bundle of the circuit (spec §3), as assembled by
`BlindBidCircuit` in `src/proof/bid_tests.rs` (the proving-machinery fields
`trim_size`/`pi_positions` carry no constraint content). -/
structure CircuitWitness where
  bid : Bid
  score : Score
  secret_k : BlsScalar
  secret : Nat
  seed : BlsScalar
  round : BlsScalar
  step : BlsScalar
  branch : Nat
  deriving Repr

/-- Modelled from the spec: the circuit's verification relation —
`BlindBidCircuit::verify_proof` and the constraint wiring are not part of
the repository snapshot. Spec §4.3: verification succeeds exactly when the
seven listed constraints hold for the witness, with each public input bound
to the corresponding witness-derived value. A `false` result models the
verification error (spec §7: a plain result, never a crash). -/
def Verify (E : Ext) (w : CircuitWitness) (pi : PublicInputs) : Bool :=
  match w.bid.decrypt_data E w.secret with
  | .error _ => false
  | .ok vb =>
    -- 1. the bid's canonical digest equals the declared bid digest
    (w.bid.hash E == pi.bid_digest) &&
    -- 2. the commitment matches the decrypted pair under the Pedersen
    --    relation, and the public commitment is the bid's `c`
    (w.bid.c == E.padd (E.smul E.G vb.1) (E.smul E.GNUMS vb.2)) &&
    (pi.commitment == w.bid.c) &&
    -- 3. `hashed_secret = H(secret_k)`
    (w.bid.hashed_secret == E.spongeHash [w.secret_k.val]) &&
    (pi.hashed_secret == w.bid.hashed_secret) &&
    -- 4. the prover-id is `H(secret_k, seed, round, step)`
    (pi.prover_id ==
      E.spongeHash [w.secret_k.val, w.seed.val, w.round.val, w.step.val]) &&
    -- 5. the Merkle branch authenticates the bid under the declared root
    E.merkleOk w.branch pi.root (w.bid.hash E) w.bid.pos.val &&
    -- 6. `bid.eligibility ≤ round ≤ bid.expiration`
    (decide (w.bid.eligibility.val ≤ w.round.val)) &&
    (decide (w.round.val ≤ w.bid.expiration.val)) &&
    -- 7. the declared public score is the Score Function of the witness
    (w.score.value ==
      E.scoreFormula vb.1 w.secret_k w.seed w.round w.step pi.root) &&
    (pi.score == w.score.value)

/-! ## Serialization helper lemmas -/

theorem natToBytesLE_length (w n : Nat) : (natToBytesLE w n).length = w := by
  induction w generalizing n with
  | zero => rfl
  | succ w ih => simp [natToBytesLE, ih]

theorem bytesToNatLE_natToBytesLE (w n : Nat) :
    bytesToNatLE (natToBytesLE w n) = n % 256 ^ w := by
  induction w generalizing n with
  | zero => simp [natToBytesLE, bytesToNatLE, Nat.mod_one]
  | succ w ih =>
    rw [natToBytesLE, bytesToNatLE, ih, pow_succ, Nat.mul_comm (256 ^ w) 256,
      Nat.mod_mul]

theorem blsToBytes_length (x : BlsScalar) : (blsToBytes x).length = 32 := by
  simp [blsToBytes, natToBytesLE_length]

theorem pBls_lt_two_pow : pBls < 256 ^ 32 := by decide

theorem blsFromBytes_blsToBytes (x : BlsScalar) :
    blsFromBytes (blsToBytes x) = some x := by
  have h2 : bytesToNatLE (blsToBytes x) = x.val := by
    rw [blsToBytes, bytesToNatLE_natToBytesLE]
    exact Nat.mod_eq_of_lt (lt_trans x.isLt pBls_lt_two_pow)
  unfold blsFromBytes
  rw [dif_pos ⟨blsToBytes_length x, by rw [h2]; exact x.isLt⟩]
  exact congrArg some (Fin.ext h2)

theorem toU64LE_val (bs : List Nat) :
    (toU64LE bs).val = bytesToNatLE bs % 2 ^ 64 := rfl

theorem toU64LE_natToBytesLE (u : U64) : toU64LE (natToBytesLE 8 u.val) = u := by
  have h : bytesToNatLE (natToBytesLE 8 u.val) = u.val := by
    rw [bytesToNatLE_natToBytesLE]
    exact Nat.mod_eq_of_lt (lt_of_lt_of_le u.isLt (by norm_num))
  apply Fin.ext
  rw [toU64LE_val, h]
  exact Nat.mod_eq_of_lt u.isLt

theorem writeSlice_chunk (done rest src : List Nat) (m p : Nat)
    (hp : done.length = p) (hm : src.length = m) :
    writeSlice (done ++ (List.replicate m 0 ++ rest)) p src =
      done ++ (src ++ rest) := by
  unfold writeSlice
  have hdrop : (done ++ (List.replicate m 0 ++ rest)).drop (p + src.length) =
      rest := by
    rw [hm, ← List.drop_drop, List.drop_left' hp,
      List.drop_left' (List.length_replicate m 0)]
  rw [List.take_left' hp, hdrop, List.append_assoc]

theorem writeSlice_chunk0 (rest src : List Nat) (m : Nat)
    (hm : src.length = m) :
    writeSlice (List.replicate m 0 ++ rest) 0 src = src ++ rest := by
  simpa using writeSlice_chunk [] rest src m 0 rfl hm

/-- The buffer written by `Bid::to_bytes` is exactly the concatenation of
the eight field encodings in source order, provided the external encoders
have their declared fixed widths. -/
theorem to_bytes_chunks (E : Ext) (b : Bid)
    (hc : (E.cipherToBytes b.encrypted_data).length = 96)
    (hs : (E.saToBytes b.stealth_address).length = 64)
    (hpt : (E.pointToBytes b.c).length = 32) :
    Bid.to_bytes E b =
      E.cipherToBytes b.encrypted_data ++ (blsToBytes b.nonce ++
        (E.saToBytes b.stealth_address ++ (blsToBytes b.hashed_secret ++
          (E.pointToBytes b.c ++ (natToBytesLE 8 b.eligibility.val ++
            (natToBytesLE 8 b.expiration.val ++
              natToBytesLE 8 b.pos.val)))))) := by
  have hrep : List.replicate BID_SIZE (0 : Nat) =
      List.replicate 96 0 ++ (List.replicate 32 0 ++ (List.replicate 64 0 ++
        (List.replicate 32 0 ++ (List.replicate 32 0 ++ (List.replicate 8 0 ++
          (List.replicate 8 0 ++ List.replicate 8 0)))))) := by
    simp [← List.replicate_add, BID_SIZE]
  simp only [Bid.to_bytes]
  rw [hrep]
  rw [writeSlice_chunk0 _ _ _ hc]
  rw [writeSlice_chunk _ _ _ 32 96 hc (blsToBytes_length b.nonce)]
  rw [← List.append_assoc]
  rw [writeSlice_chunk _ _ _ 64 128
    (by simp [hc, blsToBytes_length]) hs]
  rw [← List.append_assoc]
  rw [writeSlice_chunk _ _ _ 32 192
    (by simp [hc, hs, blsToBytes_length]) (blsToBytes_length b.hashed_secret)]
  rw [← List.append_assoc]
  rw [writeSlice_chunk _ _ _ 32 224
    (by simp [hc, hs, blsToBytes_length]) hpt]
  rw [← List.append_assoc]
  rw [writeSlice_chunk _ _ _ 8 256
    (by simp [hc, hs, hpt, blsToBytes_length]) (natToBytesLE_length 8 _)]
  rw [← List.append_assoc]
  rw [writeSlice_chunk _ _ _ 8 264
    (by simp [hc, hs, hpt, blsToBytes_length, natToBytesLE_length])
    (natToBytesLE_length 8 _)]
  rw [← List.append_assoc]
  rw [show List.replicate 8 (0 : Nat) = List.replicate 8 0 ++ [] from
    (List.append_nil _).symm]
  rw [writeSlice_chunk _ _ _ 8 272
    (by simp [hc, hs, hpt, blsToBytes_length, natToBytesLE_length])
    (natToBytesLE_length 8 _)]
  simp [List.append_assoc]

/-- `Bid::from_bytes` consumes a chunked buffer field by field at the
source's offsets. -/
theorem from_bytes_chunks (E : Ext) (C N S H P e x q : List Nat)
    (hC : C.length = 96) (hN : N.length = 32) (hS : S.length = 64)
    (hH : H.length = 32) (hP : P.length = 32) (he : e.length = 8)
    (hx : x.length = 8) (hq : q.length = 8) :
    Bid.from_bytes E (C ++ (N ++ (S ++ (H ++ (P ++ (e ++ (x ++ q))))))) =
      (E.cipherFromBytes C).bind fun ed =>
      (blsFromBytes N).bind fun nonce =>
      (E.saFromBytes S).bind fun sa =>
      (blsFromBytes H).bind fun hsec =>
      (E.pointFromBytes P).bind fun c =>
      some
        { encrypted_data := ed
          nonce := nonce
          stealth_address := sa
          hashed_secret := hsec
          c := c
          eligibility := toU64LE e
          expiration := toU64LE x
          pos := toU64LE q } := by
  have d1 : (C ++ (N ++ (S ++ (H ++ (P ++ (e ++ (x ++ q))))))).drop 96 =
      N ++ (S ++ (H ++ (P ++ (e ++ (x ++ q))))) := List.drop_left' hC
  have d2 : (C ++ (N ++ (S ++ (H ++ (P ++ (e ++ (x ++ q))))))).drop 128 =
      S ++ (H ++ (P ++ (e ++ (x ++ q)))) := by
    rw [show (128 : Nat) = 96 + 32 from rfl, ← List.drop_drop, d1,
      List.drop_left' hN]
  have d3 : (C ++ (N ++ (S ++ (H ++ (P ++ (e ++ (x ++ q))))))).drop 192 =
      H ++ (P ++ (e ++ (x ++ q))) := by
    rw [show (192 : Nat) = 128 + 64 from rfl, ← List.drop_drop, d2,
      List.drop_left' hS]
  have d4 : (C ++ (N ++ (S ++ (H ++ (P ++ (e ++ (x ++ q))))))).drop 224 =
      P ++ (e ++ (x ++ q)) := by
    rw [show (224 : Nat) = 192 + 32 from rfl, ← List.drop_drop, d3,
      List.drop_left' hH]
  have d5 : (C ++ (N ++ (S ++ (H ++ (P ++ (e ++ (x ++ q))))))).drop 256 =
      e ++ (x ++ q) := by
    rw [show (256 : Nat) = 224 + 32 from rfl, ← List.drop_drop, d4,
      List.drop_left' hP]
  have d6 : (C ++ (N ++ (S ++ (H ++ (P ++ (e ++ (x ++ q))))))).drop 264 =
      x ++ q := by
    rw [show (264 : Nat) = 256 + 8 from rfl, ← List.drop_drop, d5,
      List.drop_left' he]
  have d7 : (C ++ (N ++ (S ++ (H ++ (P ++ (e ++ (x ++ q))))))).drop 272 =
      q := by
    rw [show (272 : Nat) = 264 + 8 from rfl, ← List.drop_drop, d6,
      List.drop_left' hx]
  simp only [Bid.from_bytes, extract, List.drop_zero, Nat.sub_zero, d1, d2,
    d3, d4, d5, d6, d7]
  norm_num
  rw [List.take_left' hC, List.take_left' hN, List.take_left' hS,
    List.take_left' hH, List.take_left' hP, List.take_left' he,
    List.take_left' hx, ← hq, List.take_length]

/-! ## A concrete instantiation of the external collaborators

Used only to evaluate the theorems below on concrete inputs: simple
executable stand-ins satisfying, at the concrete points where they are
needed, the collaborator contracts that the theorems take as hypotheses. -/

/-- A concrete collaborator instantiation: the sponge is a modular sum, the
cipher packs the two message limbs into one natural number (rejecting the
designated wrong secret `1`), the group operations are numeric, and the
serializers are plain little-endian encodings. -/
def E0 : Ext where
  spongeHash l := ⟨l.foldr (· + ·) 0 % pBls, Nat.mod_lt _ pBls_pos⟩
  encrypt m0 m1 _ _ := m0.val + pBls * m1.val
  decrypt c s _ :=
    if s = 1 then none
    else some (⟨c % pBls, Nat.mod_lt _ pBls_pos⟩,
      ⟨c / pBls % pBls, Nat.mod_lt _ pBls_pos⟩)
  smul p s := p * s.val
  padd a b := a + b
  G := 2
  GNUMS := 3
  cipherToBytes := natToBytesLE 96
  cipherFromBytes bs := if bs.length = 96 then some (bytesToNatLE bs) else none
  saToBytes := natToBytesLE 64
  saFromBytes bs := if bs.length = 64 then some (bytesToNatLE bs) else none
  pointToBytes := natToBytesLE 32
  pointFromBytes bs := if bs.length = 32 then some (bytesToNatLE bs) else none
  merkleOk _ _ _ _ := true
  scoreFormula v _ _ _ _ _ := jubToBls v

/-- A concrete randomness draw: blinder `7`, nonce `9`. -/
def R0 : Rng where
  blinder := ⟨7, by decide⟩
  nonce := ⟨9, by decide⟩

/-- Concrete in-range bid value `50000 = V_RAW_MIN`. -/
def vW : JubJubScalar := ⟨50000, by decide⟩

/-- Concrete `secret_k`. -/
def kW : BlsScalar := ⟨0, pBls_pos⟩

/-- Concrete eligibility round. -/
def eW : U64 := ⟨5, by decide⟩

/-- Concrete expiration round. -/
def xW : U64 := ⟨10, by decide⟩

/-- The bid produced by `Bid.new E0 R0 0 vW 0 kW eW xW`. -/
def bidW : Bid where
  encrypted_data := 50000 + pBls * 7
  nonce := ⟨9, by decide⟩
  stealth_address := 0
  hashed_secret := ⟨0, pBls_pos⟩
  c := 100021
  eligibility := ⟨5, by decide⟩
  expiration := ⟨10, by decide⟩
  pos := ⟨0, by decide⟩

theorem bidW_new : Bid.new E0 R0 0 vW 0 kW eW xW = .ok bidW := by
  rfl

/-! ## The claims -/

/-- Claim C1: for every value below `V_MIN`, `Bid::new` fails with
`MinimumBidValueUnreached` carrying the minimum bound and the offending
value; for every value above `V_MAX` it fails with
`MaximumBidValueExceeded` carrying the maximum bound and the offending
value; and for value exactly `V_MIN` or exactly `V_MAX` it succeeds (no
clamping ever occurs). -/
theorem claim_C1 (E : Ext) (rng : Rng) (sa : Nat) (value : JubJubScalar)
    (secret : Nat) (secret_k : BlsScalar) (elig exp : U64) :
    (value < V_MIN →
      Bid.new E rng sa value secret secret_k elig exp =
        .error (.MinimumBidValueUnreached V_MIN value)) ∧
    (V_MAX < value →
      Bid.new E rng sa value secret secret_k elig exp =
        .error (.MaximumBidValueExceeded V_MAX value)) ∧
    (value = V_MIN ∨ value = V_MAX →
      ∃ b, Bid.new E rng sa value secret secret_k elig exp = .ok b) := by
  unfold Bid.new
  split_ifs with h1 h2
  · refine ⟨fun h => absurd (lt_trans h (lt_of_le_of_lt (by decide) h1))
      (lt_irrefl value), fun _ => rfl, fun h => ?_⟩
    rcases h with h | h <;> subst h
    · exact absurd h1 (by decide)
    · exact absurd h1 (lt_irrefl _)
  · refine ⟨fun _ => rfl, fun h => absurd h h1, fun h => ?_⟩
    rcases h with h | h <;> subst h
    · exact absurd h2 (lt_irrefl _)
    · exact absurd h2 (by decide)
  · exact ⟨fun h => absurd h h2, fun h => absurd h h1, fun _ => ⟨_, rfl⟩⟩

/-- Claim C1 witness: evaluated at a value below the minimum, a value above
the maximum, and the exact boundary value. -/
theorem claim_C1_witness :
    Bid.new E0 R0 0 ⟨49999, by decide⟩ 0 kW eW xW =
      .error (.MinimumBidValueUnreached V_MIN ⟨49999, by decide⟩) ∧
    Bid.new E0 R0 0 ⟨250001, by decide⟩ 0 kW eW xW =
      .error (.MaximumBidValueExceeded V_MAX ⟨250001, by decide⟩) ∧
    (∃ b, Bid.new E0 R0 0 vW 0 kW eW xW = .ok b) :=
  ⟨(claim_C1 E0 R0 0 ⟨49999, by decide⟩ 0 kW eW xW).1 (by decide),
   (claim_C1 E0 R0 0 ⟨250001, by decide⟩ 0 kW eW xW).2.1 (by decide),
   (claim_C1 E0 R0 0 vW 0 kW eW xW).2.2 (Or.inl (by decide))⟩

/-- Claim C5: every successful `Bid::new` returns a bid whose
`hashed_secret` is the sponge hash of `[secret_k]`, whose `pos` is 0, whose
eligibility and expiration are the supplied arguments, and whose commitment
`c` is `value * G + blinder * G_NUMS` for exactly the `(value, blinder)`
pair that `encrypted_data` encrypts under `(secret, nonce)`. -/
theorem claim_C5 (E : Ext) (rng : Rng) (sa : Nat) (value : JubJubScalar)
    (secret : Nat) (secret_k : BlsScalar) (elig exp : U64) (b : Bid)
    (h : Bid.new E rng sa value secret secret_k elig exp = .ok b) :
    b.hashed_secret = E.spongeHash [secret_k.val] ∧
    b.pos.val = 0 ∧
    b.eligibility = elig ∧
    b.expiration = exp ∧
    ∃ blinder : JubJubScalar,
      b.c = E.padd (E.smul E.G value) (E.smul E.GNUMS blinder) ∧
      b.encrypted_data =
        E.encrypt (jubToBls value) (jubToBls blinder) secret b.nonce := by
  unfold Bid.new at h
  split_ifs at h
  simp only [Except.ok.injEq] at h
  subst h
  exact ⟨rfl, rfl, rfl, rfl, rng.blinder, rfl, rfl⟩

/-- Claim C5 witness: the concrete bid produced by `Bid.new E0 R0`. -/
theorem claim_C5_witness :
    bidW.hashed_secret = E0.spongeHash [kW.val] ∧
    bidW.pos.val = 0 ∧
    bidW.eligibility = eW ∧
    bidW.expiration = xW ∧
    ∃ blinder : JubJubScalar,
      bidW.c = E0.padd (E0.smul E0.G vW) (E0.smul E0.GNUMS blinder) ∧
      bidW.encrypted_data =
        E0.encrypt (jubToBls vW) (jubToBls blinder) 0 bidW.nonce :=
  claim_C5 E0 R0 0 vW 0 kW eW xW bidW bidW_new

/-- Claim C6: for every bid built by `Bid::new` with shared secret `s` and
value `v`, `decrypt_data(s)` returns `Ok((v, blinder))` with exactly the
construction-time blinder, provided the authenticated cipher collaborator
round-trips on that ciphertext; and whenever authenticated decryption of
the ciphertext fails under the supplied secret, `decrypt_data` returns
`WrongSecretProvided` and never a partially recovered pair. -/
theorem claim_C6 (E : Ext) (rng : Rng) (sa : Nat) (value : JubJubScalar)
    (secret : Nat) (secret_k : BlsScalar) (elig exp : U64) (b : Bid)
    (h : Bid.new E rng sa value secret secret_k elig exp = .ok b) :
    (E.decrypt
        (E.encrypt (jubToBls value) (jubToBls rng.blinder) secret rng.nonce)
        secret rng.nonce =
        some (jubToBls value, jubToBls rng.blinder) →
      b.decrypt_data E secret = .ok (value, rng.blinder)) ∧
    (∀ s', E.decrypt b.encrypted_data s' b.nonce = none →
      b.decrypt_data E s' = .error .WrongSecretProvided) := by
  have hjb : ∀ y : JubJubScalar, blsToJub (jubToBls y) = y := fun y =>
    Fin.ext (Nat.mod_eq_of_lt y.isLt)
  unfold Bid.new at h
  split_ifs at h
  simp only [Except.ok.injEq] at h
  subst h
  constructor
  · intro hrt
    unfold Bid.decrypt_data
    rw [show (Bid.set_value E rng _ value secret).encrypted_data =
      E.encrypt (jubToBls value) (jubToBls rng.blinder) secret rng.nonce
      from rfl]
    rw [show (Bid.set_value E rng _ value secret).nonce = rng.nonce from rfl]
    rw [hrt]
    simp [hjb]
  · intro s' hfail
    unfold Bid.decrypt_data
    rw [hfail]

/-- Claim C6 witness: decryption of the concrete bid under the construction
secret recovers `(50000, 7)`; under the designated wrong secret it fails
with `WrongSecretProvided`. -/
theorem claim_C6_witness :
    bidW.decrypt_data E0 0 = .ok (vW, R0.blinder) ∧
    bidW.decrypt_data E0 1 = .error .WrongSecretProvided :=
  ⟨(claim_C6 E0 R0 0 vW 0 kW eW xW bidW bidW_new).1 (by rfl),
   (claim_C6 E0 R0 0 vW 0 kW eW xW bidW bidW_new).2 1 (by rfl)⟩

/-- Claim C7: `generate_prover_id(secret_k, seed, round, step)` equals the
sponge hash of the four-element sequence `[secret_k, seed, round, step]`,
and repeated calls on the same inputs return the identical scalar. -/
theorem claim_C7 (E : Ext) (b : Bid) (secret_k seed round step : BlsScalar) :
    Bid.generate_prover_id E b secret_k seed round step =
      E.spongeHash [secret_k.val, seed.val, round.val, step.val] ∧
    Bid.generate_prover_id E b secret_k seed round step =
      Bid.generate_prover_id E b secret_k seed round step :=
  ⟨rfl, rfl⟩

/-- Claim C10: `generate_prover_id` does not depend on any field of the bid
it is called on: any two bids give the same prover id for the same
quadruple of inputs. -/
theorem claim_C10 (E : Ext) (b1 b2 : Bid)
    (secret_k seed round step : BlsScalar) :
    Bid.generate_prover_id E b1 secret_k seed round step =
      Bid.generate_prover_id E b2 secret_k seed round step :=
  rfl

/-- Claim C2: for every bid and round (with the bid's window well-formed and
its decryption succeeding, the spec's implicit call context), `Score::compute`
returns the eligibility error whenever `round < bid.eligibility`, the
expiration error whenever `round > bid.expiration`, and only produces a
`Score` when `bid.eligibility ≤ round ≤ bid.expiration`. -/
theorem claim_C2 (E : Ext) (bid : Bid) (secret : Nat)
    (secret_k root seed : BlsScalar) (round step : U64)
    (v : JubJubScalar × JubJubScalar)
    (hdec : bid.decrypt_data E secret = .ok v)
    (hwf : bid.eligibility ≤ bid.expiration) :
    (round < bid.eligibility →
      Score.compute E bid secret secret_k root seed round step =
        .error .BidNotYetEligible) ∧
    (bid.expiration < round →
      Score.compute E bid secret secret_k root seed round step =
        .error .ExpiredBid) ∧
    (∀ s, Score.compute E bid secret secret_k root seed round step = .ok s →
      bid.eligibility ≤ round ∧ round ≤ bid.expiration) := by
  unfold Score.compute
  rw [hdec]
  split_ifs with h1 h2
  · exact ⟨fun _ => rfl,
      fun h2' => absurd (lt_of_lt_of_le (lt_trans h2' h1) hwf) (lt_irrefl _),
      fun s hs => by simp at hs⟩
  · exact ⟨fun h => absurd h h1, fun _ => rfl,
      fun s hs => by simp at hs⟩
  · exact ⟨fun h => absurd h h1, fun h => absurd h h2,
      fun s _ => ⟨le_of_not_lt h1, le_of_not_lt h2⟩⟩

/-- Claim C2 witness: the concrete bid with window `[5, 10]`, evaluated at
rounds 3 (not yet eligible), 12 (expired) and 7 (inside the window). -/
theorem claim_C2_witness :
    Score.compute E0 bidW 0 kW 0 0 ⟨3, by decide⟩ ⟨1, by decide⟩ =
      .error .BidNotYetEligible ∧
    Score.compute E0 bidW 0 kW 0 0 ⟨12, by decide⟩ ⟨1, by decide⟩ =
      .error .ExpiredBid ∧
    (bidW.eligibility ≤ (⟨7, by decide⟩ : U64) ∧
      (⟨7, by decide⟩ : U64) ≤ bidW.expiration) :=
  ⟨(claim_C2 E0 bidW 0 kW 0 0 ⟨3, by decide⟩ ⟨1, by decide⟩
      (vW, ⟨7, by decide⟩) (by rfl) (by decide)).1 (by decide),
   (claim_C2 E0 bidW 0 kW 0 0 ⟨12, by decide⟩ ⟨1, by decide⟩
      (vW, ⟨7, by decide⟩) (by rfl) (by decide)).2.1 (by decide),
   (claim_C2 E0 bidW 0 kW 0 0 ⟨7, by decide⟩ ⟨1, by decide⟩
      (vW, ⟨7, by decide⟩) (by rfl) (by decide)).2.2
      ⟨jubToBls vW⟩ (by rfl)⟩

/-- Claim C9: the equality test on bids holds iff their canonical digests
are equal, and memberwise structural equality is never what decides bid
identity: two structurally different bids with colliding digests are equal
under the bid equality test. -/
theorem claim_C9 :
    (∀ (E : Ext) (a b : Bid),
      Bid.beq E a b = true ↔ Bid.hash E a = Bid.hash E b) ∧
    (∃ (E : Ext) (a b : Bid), a ≠ b ∧ Bid.beq E a b = true) := by
  constructor
  · intro E a b
    unfold Bid.beq
    exact beq_iff_eq
  · refine ⟨E0,
      { encrypted_data := 1
        nonce := ⟨0, pBls_pos⟩
        stealth_address := 0
        hashed_secret := ⟨0, pBls_pos⟩
        c := 0
        eligibility := ⟨0, by decide⟩
        expiration := ⟨0, by decide⟩
        pos := ⟨0, by decide⟩ },
      { encrypted_data := 0
        nonce := ⟨0, pBls_pos⟩
        stealth_address := 1
        hashed_secret := ⟨0, pBls_pos⟩
        c := 0
        eligibility := ⟨0, by decide⟩
        expiration := ⟨0, by decide⟩
        pos := ⟨0, by decide⟩ },
      by decide, by decide⟩

/-- Unfolding of the circuit verification relation into its constraint
conjunction. -/
theorem Verify_eq_true_iff (E : Ext) (w : CircuitWitness)
    (pi : PublicInputs) :
    Verify E w pi = true ↔
      ∃ vb : JubJubScalar × JubJubScalar,
        w.bid.decrypt_data E w.secret = .ok vb ∧
        w.bid.hash E = pi.bid_digest ∧
        w.bid.c = E.padd (E.smul E.G vb.1) (E.smul E.GNUMS vb.2) ∧
        pi.commitment = w.bid.c ∧
        w.bid.hashed_secret = E.spongeHash [w.secret_k.val] ∧
        pi.hashed_secret = w.bid.hashed_secret ∧
        pi.prover_id = E.spongeHash
          [w.secret_k.val, w.seed.val, w.round.val, w.step.val] ∧
        E.merkleOk w.branch pi.root (w.bid.hash E) w.bid.pos.val = true ∧
        w.bid.eligibility.val ≤ w.round.val ∧
        w.round.val ≤ w.bid.expiration.val ∧
        w.score.value =
          E.scoreFormula vb.1 w.secret_k w.seed w.round w.step pi.root ∧
        pi.score = w.score.value := by
  unfold Verify
  rcases h : w.bid.decrypt_data E w.secret with e | vb
  · simp
  · simp [Bool.and_eq_true, beq_iff_eq, decide_eq_true_eq, and_assoc]

/-- Claim C3: for every accepted proof (witness satisfying the verification
relation against its six public inputs), replacing the declared public
score by the original score plus any nonzero constant makes verification
return the failure result (never success, never a crash); likewise,
mutating the bid's `hashed_secret` field in the witness while keeping the
original public inputs makes verification fail. -/
theorem claim_C3 (E : Ext) (w : CircuitWitness) (pi : PublicInputs)
    (hver : Verify E w pi = true) :
    (∀ d : BlsScalar, d ≠ 0 →
      Verify E w { pi with score := pi.score + d } = false) ∧
    (∀ h' : BlsScalar, h' ≠ w.bid.hashed_secret →
      Verify E { w with bid := { w.bid with hashed_secret := h' } } pi =
        false) := by
  rw [Verify_eq_true_iff] at hver
  obtain ⟨vb, hdec, hdig, hped, hcom, hhs, hpihs, hpid, hmerk, helig, hexp,
    hsc, hpisc⟩ := hver
  constructor
  · intro d hd
    cases hv : Verify E w { pi with score := pi.score + d } with
    | false => rfl
    | true =>
      exfalso
      rw [Verify_eq_true_iff] at hv
      obtain ⟨vb2, -, -, -, -, -, -, -, -, -, -, -, hpisc2⟩ := hv
      have h1 : pi.score + d = w.score.value := hpisc2
      rw [← hpisc] at h1
      exact hd (add_right_eq_self.mp h1)
  · intro h' hne
    cases hv : Verify E
        { w with bid := { w.bid with hashed_secret := h' } } pi with
    | false => rfl
    | true =>
      exfalso
      rw [Verify_eq_true_iff] at hv
      obtain ⟨vb2, -, -, -, -, -, hpihs2, -, -, -, -, -, -⟩ := hv
      have h2 : pi.hashed_secret = h' := hpihs2
      exact hne (h2.symm.trans hpihs)

/-- The score of the concrete witness bundle. -/
def scoreW : Score := ⟨jubToBls vW⟩

/-- A concrete circuit witness bundle around `bidW`. -/
def wW : CircuitWitness where
  bid := bidW
  score := scoreW
  secret_k := kW
  secret := 0
  seed := ⟨0, pBls_pos⟩
  round := ⟨7, by decide⟩
  step := ⟨1, by decide⟩
  branch := 0

/-- The six public inputs matching `wW` under `E0`. -/
def piW : PublicInputs where
  root := ⟨0, pBls_pos⟩
  bid_digest := Bid.hash E0 bidW
  commitment := bidW.c
  hashed_secret := ⟨0, pBls_pos⟩
  prover_id := E0.spongeHash [kW.val, 0, 7, 1]
  score := jubToBls vW

theorem verifyW : Verify E0 wW piW = true := by decide

/-- Claim C3 witness: the concrete accepted proof rejected after adding 1
to the public score, and after mutating the witness bid's hashed secret. -/
theorem claim_C3_witness :
    Verify E0 wW { piW with score := piW.score + 1 } = false ∧
    Verify E0 { wW with bid := { bidW with hashed_secret := 1 } } piW =
      false :=
  ⟨(claim_C3 E0 wW piW verifyW).1 1 (by decide),
   (claim_C3 E0 wW piW verifyW).2 1 (by decide)⟩

/-- Claim C4: for every valid bid `b` (whose externally serialized fields
round-trip through their own fixed-width codecs, the collaborator contract
of spec §6), `from_bytes(to_bytes(b))` succeeds and the decoded bid is
canonical-digest-equal to `b`. -/
theorem claim_C4 (E : Ext) (b : Bid)
    (hc1 : E.cipherFromBytes (E.cipherToBytes b.encrypted_data) =
      some b.encrypted_data)
    (hc2 : (E.cipherToBytes b.encrypted_data).length = 96)
    (hs1 : E.saFromBytes (E.saToBytes b.stealth_address) =
      some b.stealth_address)
    (hs2 : (E.saToBytes b.stealth_address).length = 64)
    (hp1 : E.pointFromBytes (E.pointToBytes b.c) = some b.c)
    (hp2 : (E.pointToBytes b.c).length = 32) :
    Bid.from_bytes E (Bid.to_bytes E b) = some b ∧
    ∀ b', Bid.from_bytes E (Bid.to_bytes E b) = some b' →
      Bid.hash E b' = Bid.hash E b := by
  have h1 : Bid.from_bytes E (Bid.to_bytes E b) = some b := by
    rw [to_bytes_chunks E b hc2 hs2 hp2]
    rw [from_bytes_chunks E _ _ _ _ _ _ _ _ hc2 (blsToBytes_length _) hs2
      (blsToBytes_length _) hp2 (natToBytesLE_length 8 _)
      (natToBytesLE_length 8 _) (natToBytesLE_length 8 _)]
    rw [hc1, blsFromBytes_blsToBytes, hs1, blsFromBytes_blsToBytes, hp1]
    simp [toU64LE_natToBytesLE]
  refine ⟨h1, fun b' hb' => ?_⟩
  rw [h1, Option.some.injEq] at hb'
  rw [hb']

set_option maxRecDepth 100000 in
/-- Claim C4 witness: the round-trip evaluated on the concrete bid under
the concrete little-endian collaborator codecs. -/
theorem claim_C4_witness :
    Bid.from_bytes E0 (Bid.to_bytes E0 bidW) = some bidW ∧
    Bid.hash E0 bidW = Bid.hash E0 bidW :=
  ⟨(claim_C4 E0 bidW (by decide) (by decide) (by decide) (by decide)
      (by decide) (by decide)).1,
   (claim_C4 E0 bidW (by decide) (by decide) (by decide) (by decide)
      (by decide) (by decide)).2 bidW
     (claim_C4 E0 bidW (by decide) (by decide) (by decide) (by decide)
      (by decide) (by decide)).1⟩

/-- Claim C8: `to_bytes` produces — and `from_bytes` consumes — a
fixed-width buffer laid out as cipher bytes, then nonce (32 bytes), stealth
address (64 bytes), hashed secret (32 bytes), commitment (32 bytes),
eligibility (8 bytes little-endian), expiration (8 bytes little-endian),
position (8 bytes little-endian), in exactly that order. -/
theorem claim_C8 (E : Ext) (b : Bid)
    (hc2 : (E.cipherToBytes b.encrypted_data).length = 96)
    (hs2 : (E.saToBytes b.stealth_address).length = 64)
    (hp2 : (E.pointToBytes b.c).length = 32)
    (C N S H P e x q : List Nat)
    (hC : C.length = 96) (hN : N.length = 32) (hS : S.length = 64)
    (hH : H.length = 32) (hP : P.length = 32) (he : e.length = 8)
    (hx : x.length = 8) (hq : q.length = 8) :
    Bid.to_bytes E b =
      E.cipherToBytes b.encrypted_data ++ (blsToBytes b.nonce ++
        (E.saToBytes b.stealth_address ++ (blsToBytes b.hashed_secret ++
          (E.pointToBytes b.c ++ (natToBytesLE 8 b.eligibility.val ++
            (natToBytesLE 8 b.expiration.val ++
              natToBytesLE 8 b.pos.val)))))) ∧
    (Bid.to_bytes E b).length = BID_SIZE ∧
    Bid.from_bytes E (C ++ (N ++ (S ++ (H ++ (P ++ (e ++ (x ++ q))))))) =
      (E.cipherFromBytes C).bind fun ed =>
      (blsFromBytes N).bind fun nonce =>
      (E.saFromBytes S).bind fun sa =>
      (blsFromBytes H).bind fun hsec =>
      (E.pointFromBytes P).bind fun c =>
      some
        { encrypted_data := ed
          nonce := nonce
          stealth_address := sa
          hashed_secret := hsec
          c := c
          eligibility := toU64LE e
          expiration := toU64LE x
          pos := toU64LE q } := by
  refine ⟨to_bytes_chunks E b hc2 hs2 hp2, ?_,
    from_bytes_chunks E C N S H P e x q hC hN hS hH hP he hx hq⟩
  rw [to_bytes_chunks E b hc2 hs2 hp2]
  simp [hc2, hs2, hp2, blsToBytes_length, natToBytesLE_length, BID_SIZE]

/-- Claim C8 witness: the layout theorem applied to the concrete bid and a
concrete chunked buffer. -/
theorem claim_C8_witness : (Bid.to_bytes E0 bidW).length = BID_SIZE :=
  (claim_C8 E0 bidW (by decide) (by decide) (by decide)
    (natToBytesLE 96 0) (natToBytesLE 32 0) (natToBytesLE 64 0)
    (natToBytesLE 32 0) (natToBytesLE 32 0) (natToBytesLE 8 0)
    (natToBytesLE 8 0) (natToBytesLE 8 0)
    (natToBytesLE_length 96 0) (natToBytesLE_length 32 0)
    (natToBytesLE_length 64 0) (natToBytesLE_length 32 0)
    (natToBytesLE_length 32 0) (natToBytesLE_length 8 0)
    (natToBytesLE_length 8 0) (natToBytesLE_length 8 0)).2.1

end BlindBid
